import Mathlib

/-!
Verification of the mangaScrapper content-acquisition core: a shallow
embedding of the extraction managers (BaseManager, MadaraManager,
UzayManager, ThemesiaManager), the image storage pipeline
(ImageStorageService), the proxy rotation service (ProxyService), the
per-source scheduler (SchedulerService) and the scraping job runner
(ScrapingService), together with theorems settling the frozen claims.

Library calls of the runtime (fetch, the file system, sharp, JSON.parse,
regex extraction, atob, cron timers) are modelled as explicit oracles or
as explicit state threaded through the functions; everything the
repository's own code computes is translated directly.
-/

namespace MS

/-! ## Shared string helpers (JS primitives used by the managers) -/

/-- Substring search over character lists. -/
def hasSubList (sub : List Char) : List Char → Bool
  | [] => sub.isEmpty
  | c :: rest => sub.isPrefixOf (c :: rest) || hasSubList sub rest

/-- JS `String.prototype.includes`: substring containment. -/
def jsIncludes (s sub : String) : Bool := hasSubList sub.data s.data

/-- JS `String.prototype.trim`: strip whitespace from both ends. -/
def jsStrTrim (s : String) : String :=
  String.mk (((s.data.dropWhile Char.isWhitespace).reverse.dropWhile
    Char.isWhitespace).reverse)

/-- JS `String.prototype.split(sep)` for a single-character separator,
as used by `generateId` / `generateEpisodeId` (`url.split('/')`).
Splitting the empty string yields `[[]]`, matching `''.split('/')`. -/
def splitOnChar (sep : Char) : List Char → List (List Char)
  | [] => [[]]
  | c :: rest =>
    match splitOnChar sep rest with
    | [] => [[c]]
    | x :: xs => if c == sep then [] :: x :: xs else (c :: x) :: xs

/-- JS `Array.prototype.join(sep)` over character lists. -/
def jsJoin (sep : Char) : List (List Char) → List Char
  | [] => []
  | [x] => x
  | x :: xs => x ++ sep :: jsJoin sep xs

/-! ## BaseManager.extractEpisodeNumber

```
protected extractEpisodeNumber(text: string): number {
  const match = text.replace(/[^0-9.,]/g, ' ').trim() with the leading
  run of dots and commas then stripped;
  const number = parseFloat(match);
  return isNaN(number) ? -1 : number;
}
```
The number is modelled as a rational: the values reached here are short
decimal literals, for which JS `parseFloat` is exact. -/

/-- One character of the first sanitising pass: every character outside
`[0-9.,]` becomes a space. -/
def sanitizeChar (c : Char) : Char :=
  if c.isDigit || c == '.' || c == ',' then c else ' '

def sanitize (l : List Char) : List Char := l.map sanitizeChar

/-- JS `trim` on the sanitised text.  After `sanitize` the only whitespace
character that can occur is the plain space, so dropping spaces at both
ends is exact. -/
def jsTrim (l : List Char) : List Char :=
  ((l.dropWhile (· == ' ')).reverse.dropWhile (· == ' ')).reverse

/-- The second replace of `extractEpisodeNumber`: drop every leading dot
or comma. -/
def dropLeadingSeps (l : List Char) : List Char :=
  l.dropWhile (fun c => c == '.' || c == ',')

def digitsVal (l : List Char) : Nat :=
  l.foldl (fun acc c => acc * 10 + (c.toNat - '0'.toNat)) 0

/-- JS `parseFloat`, step 1: skip leading whitespace (only spaces can
occur in the sanitised text). -/
def pfSkip (l : List Char) : List Char := l.dropWhile (· == ' ')

/-- JS `parseFloat`: is the optional sign a minus? -/
def pfNeg (l : List Char) : Bool :=
  match pfSkip l with
  | '-' :: _ => true
  | _ => false

/-- JS `parseFloat`: the text after the optional sign. -/
def pfBody (l : List Char) : List Char :=
  match pfSkip l with
  | '-' :: rest => rest
  | '+' :: rest => rest
  | l1 => l1

/-- JS `parseFloat`: the integer-part digits. -/
def pfInt (l : List Char) : List Char := (pfBody l).takeWhile Char.isDigit

/-- JS `parseFloat`: the fractional-part digits (after a dot directly
following the integer part); everything after them is ignored, as
`parseFloat` stops at the first character it cannot use. -/
def pfFrac (l : List Char) : List Char :=
  match (pfBody l).dropWhile Char.isDigit with
  | '.' :: r => r.takeWhile Char.isDigit
  | _ => []

/-- JS `parseFloat` restricted to the alphabet that reaches it here
(digits, `.`, `,`, spaces and an optional sign): `none` models `NaN`
(no digit was read).  The exponent form cannot occur because letters
were replaced by spaces by `sanitize`. -/
def parseFloatQ (l : List Char) : Option ℚ :=
  if (pfInt l).isEmpty && (pfFrac l).isEmpty then none
  else some ((if pfNeg l then (-1 : ℚ) else 1) *
      ((digitsVal (pfInt l) : ℚ) +
        (digitsVal (pfFrac l) : ℚ) / ((10 : ℚ) ^ (pfFrac l).length)))

/-- `BaseManager.extractEpisodeNumber`. -/
def extractEpisodeNumber (text : String) : ℚ :=
  match parseFloatQ (dropLeadingSeps (jsTrim (sanitize text.data))) with
  | none => -1
  | some q => q

/-! ## Id derivation (MadaraManager / UzayManager, identical bodies)

```
private generateId(url: string): string {
  return url.split('/').pop() || Math.random().toString(36).substr(2, 9);
}
private generateEpisodeId(url: string): string {
  return url.split('/').slice(-2).join('-') || Math.random().toString(36).substr(2, 9);
}
```
`none` marks the branch that draws a random identifier (the `||` right
operand); `some s` is the deterministic slug. -/

def generateId (url : String) : Option String :=
  match (splitOnChar '/' url.data).getLast? with
  | none => none
  | some seg => if seg.isEmpty then none else some (String.mk seg)

def generateEpisodeId (url : String) : Option String :=
  let parts := splitOnChar '/' url.data
  let lastTwo := parts.drop (parts.length - 2)
  let joined := jsJoin '-' lastTwo
  if joined.isEmpty then none else some (String.mk joined)

/-! ## MadaraManager.getSeriesData episode construction

```
const episodes = episodeElements.map(element => {
  const episodeUrl = element.getAttribute('href') || '';
  const episodeName = element.textContent?.trim() || '';
  const number = this.extractEpisodeNumber(episodeName);
  return { id: this.generateEpisodeId(episodeUrl), seriesId: id, name: episodeName,
           number, url: episodeUrl, images: [], publishedAt: new Date() };
}).filter(ep => ep.number >= 0 && !isNaN(ep.number)).reverse();
```
`!isNaN(ep.number)` is always true because `extractEpisodeNumber` already
maps `NaN` to `-1`; the filter keeps exactly the episodes with a
non-negative ordinal.  Dates and the images list are omitted: both are
constants at this point. -/

/-- The two DOM attributes of one `.wp-manga-chapter a` element that the
code reads. -/
structure EpisodeAnchor where
  href : Option String
  text : Option String
deriving DecidableEq

structure MEpisode where
  id : Option String
  seriesId : String
  name : String
  number : ℚ
  url : String
deriving DecidableEq

def madaraEpisode (seriesId : String) (e : EpisodeAnchor) : MEpisode :=
  let episodeUrl := e.href.getD ""
  let episodeName := (e.text.map jsStrTrim).getD ""
  { id := generateEpisodeId episodeUrl
    seriesId := seriesId
    name := episodeName
    number := extractEpisodeNumber episodeName
    url := episodeUrl }

def madaraEpisodes (seriesId : String) (elems : List EpisodeAnchor) : List MEpisode :=
  ((elems.map (madaraEpisode seriesId)).filter
    (fun ep => decide (0 ≤ ep.number))).reverse

/-! ## Claims C1 -/

/-- Claim C1: `extractEpisodeNumber` parses `"Chapter 12.5"` to `12.5`,
returns the sentinel `-1` for `"Special"`, and every episode in the series
record built by `MadaraManager.getSeriesData` (the list handed to
persistence) has a non-negative ordinal: negative-ordinal episodes are
filtered out before the record is returned. -/
theorem c1_ordinal_parse_and_filter :
    extractEpisodeNumber "Chapter 12.5" = 25 / 2 ∧
    extractEpisodeNumber "Special" = -1 ∧
    ∀ (sid : String) (elems : List EpisodeAnchor) (ep : MEpisode),
      ep ∈ madaraEpisodes sid elems → 0 ≤ ep.number := by
  refine ⟨?_, ?_, ?_⟩
  · have h1 : pfInt (dropLeadingSeps (jsTrim (sanitize "Chapter 12.5".data))) =
        ['1', '2'] := by decide
    have h2 : pfFrac (dropLeadingSeps (jsTrim (sanitize "Chapter 12.5".data))) =
        ['5'] := by decide
    have h3 : pfNeg (dropLeadingSeps (jsTrim (sanitize "Chapter 12.5".data))) =
        false := by decide
    have h4 : digitsVal ['1', '2'] = 12 := by decide
    have h5 : digitsVal ['5'] = 5 := by decide
    have hp : parseFloatQ (dropLeadingSeps (jsTrim (sanitize "Chapter 12.5".data))) =
        some (25 / 2) := by
      simp only [parseFloatQ, h1, h2, h3, h4, h5]
      norm_num
    unfold extractEpisodeNumber
    rw [hp]
  · have h1 : pfInt (dropLeadingSeps (jsTrim (sanitize "Special".data))) = [] := by
      decide
    have h2 : pfFrac (dropLeadingSeps (jsTrim (sanitize "Special".data))) = [] := by
      decide
    have hp : parseFloatQ (dropLeadingSeps (jsTrim (sanitize "Special".data))) =
        none := by
      simp [parseFloatQ, h1, h2]
    unfold extractEpisodeNumber
    rw [hp]
  · intro sid elems ep hmem
    simp only [madaraEpisodes, List.mem_reverse, List.mem_filter,
      decide_eq_true_eq] at hmem
    exact hmem.2

/-- Witness for C1: a concrete chapter anchor survives the filter and its
ordinal is non-negative. -/
theorem c1_ordinal_parse_and_filter_witness :
    (madaraEpisode "s" ⟨some "a/b", some "Chapter 1"⟩) ∈
      madaraEpisodes "s" [⟨some "a/b", some "Chapter 1"⟩] ∧
    0 ≤ (madaraEpisode "s" ⟨some "a/b", some "Chapter 1"⟩).number := by
  have htrim : jsStrTrim "Chapter 1" = "Chapter 1" := by decide
  have h1 : pfInt (dropLeadingSeps (jsTrim (sanitize "Chapter 1".data))) =
      ['1'] := by decide
  have h2 : pfFrac (dropLeadingSeps (jsTrim (sanitize "Chapter 1".data))) = [] := by
    decide
  have h3 : pfNeg (dropLeadingSeps (jsTrim (sanitize "Chapter 1".data))) =
      false := by decide
  have h4 : digitsVal ['1'] = 1 := by decide
  have h5 : digitsVal ([] : List Char) = 0 := by decide
  have hp : parseFloatQ (dropLeadingSeps (jsTrim (sanitize "Chapter 1".data))) =
      some 1 := by
    simp only [parseFloatQ, h1, h2, h3, h4, h5]
    norm_num
  have hnum : (madaraEpisode "s" ⟨some "a/b", some "Chapter 1"⟩).number = 1 := by
    show extractEpisodeNumber (jsStrTrim "Chapter 1") = 1
    rw [htrim]
    unfold extractEpisodeNumber
    rw [hp]
  have hmem : (madaraEpisode "s" ⟨some "a/b", some "Chapter 1"⟩) ∈
      madaraEpisodes "s" [⟨some "a/b", some "Chapter 1"⟩] := by
    unfold madaraEpisodes
    apply List.mem_reverse.mpr
    apply List.mem_filter.mpr
    refine ⟨List.mem_map_of_mem _ (List.mem_singleton_self _), ?_⟩
    apply decide_eq_true
    rw [hnum]
    norm_num
  exact ⟨hmem, c1_ordinal_parse_and_filter.2.2 "s" _ _ hmem⟩

/-! ## Claim C9: id derivation -/

theorem splitOnChar_cons (sep c : Char) (rest : List Char) :
    splitOnChar sep (c :: rest) =
      match splitOnChar sep rest with
      | [] => [[c]]
      | x :: xs => if c == sep then [] :: x :: xs else (c :: x) :: xs := rfl

theorem splitOnChar_cons_of_eq (sep c : Char) (rest x : List Char)
    (xs : List (List Char)) (h : splitOnChar sep rest = x :: xs) :
    splitOnChar sep (c :: rest) =
      if c == sep then [] :: x :: xs else (c :: x) :: xs := by
  rw [splitOnChar_cons, h]

theorem splitOnChar_ne_nil (sep : Char) (l : List Char) :
    splitOnChar sep l ≠ [] := by
  cases l with
  | nil => simp [splitOnChar]
  | cons c rest =>
    rw [splitOnChar_cons]
    cases h : splitOnChar sep rest with
    | nil => simp
    | cons x xs => by_cases hc : c = sep <;> simp [hc]

theorem splitOnChar_length_of_mem (sep : Char) (l : List Char) (h : sep ∈ l) :
    2 ≤ (splitOnChar sep l).length := by
  induction l with
  | nil => cases h
  | cons c rest ih =>
    cases hs : splitOnChar sep rest with
    | nil => exact absurd hs (splitOnChar_ne_nil sep rest)
    | cons x xs =>
      rw [splitOnChar_cons_of_eq sep c rest x xs hs]
      rcases List.mem_cons.mp h with hc | hmem
      · rw [if_pos (by simp [hc])]
        simp
      · have h2 := ih hmem
        rw [hs] at h2
        simp only [List.length_cons] at h2
        by_cases hc : c = sep <;> simp [hc] <;> omega

theorem splitOnChar_of_not_mem (sep : Char) (l : List Char) (h : sep ∉ l) :
    splitOnChar sep l = [l] := by
  induction l with
  | nil => rfl
  | cons c rest ih =>
    have hc : c ≠ sep := fun he => h (he ▸ List.mem_cons_self c rest)
    have hrest : sep ∉ rest := fun hm => h (List.mem_cons_of_mem c hm)
    rw [splitOnChar_cons, ih hrest]
    simp [hc]

theorem mem_of_getLast?_eq_some {α : Type} {l : List α} {a : α}
    (h : l.getLast? = some a) : a ∈ l := by
  have hne : l ≠ [] := by
    intro h'
    subst h'
    simp at h
  rw [List.getLast?_eq_getLast_of_ne_nil hne] at h
  injection h with h
  exact h ▸ List.getLast_mem hne

/-- The last field of a JS `split` is empty exactly when the string is
empty or ends with the separator. -/
theorem splitOnChar_getLast_empty (sep : Char) (l : List Char) :
    (splitOnChar sep l).getLast? = some [] ↔
      (l = [] ∨ l.getLast? = some sep) := by
  induction l with
  | nil => simp [splitOnChar]
  | cons c rest ih =>
    cases rest with
    | nil =>
      by_cases hc : c = sep
      · subst hc
        simp [splitOnChar]
      · simp [splitOnChar, hc]
    | cons d rest' =>
      cases hs : splitOnChar sep (d :: rest') with
      | nil => exact absurd hs (splitOnChar_ne_nil sep _)
      | cons x xs =>
        rw [hs] at ih
        rw [splitOnChar_cons_of_eq sep c (d :: rest') x xs hs]
        by_cases hc : c = sep
        · rw [if_pos (by simp [hc])]
          rw [List.getLast?_cons_cons, ih]
          simp [hc]
        · rw [if_neg (by simp [hc])]
          cases xs with
          | nil =>
            -- the split of the tail is a single field: the tail holds no
            -- separator, so its last character is not the separator
            have hlast : (d :: rest' : List Char).getLast? ≠ some sep := by
              intro hl
              have hm := mem_of_getLast?_eq_some hl
              have hlen := splitOnChar_length_of_mem sep _ hm
              rw [hs] at hlen
              simp at hlen
            constructor
            · intro h'
              simp at h'
            · intro h'
              rcases h' with h' | h'
              · exact absurd h' (by simp)
              · rw [List.getLast?_cons_cons] at h'
                exact absurd h' hlast
          | cons y ys =>
            rw [List.getLast?_cons_cons]
            rw [show (y :: ys : List (List Char)).getLast? =
              (x :: y :: ys : List (List Char)).getLast? from
              (List.getLast?_cons_cons).symm]
            rw [ih]
            simp

/-- A split into a single field means the separator never occurs and the
field is the whole string. -/
theorem splitOnChar_eq_singleton (sep : Char) (l : List Char) (p : List Char)
    (h : splitOnChar sep l = [p]) : p = l := by
  by_cases hm : sep ∈ l
  · have hlen := splitOnChar_length_of_mem sep l hm
    rw [h] at hlen
    simp at hlen
  · have h2 := splitOnChar_of_not_mem sep l hm
    rw [h] at h2
    injection h2

/-- Claim C9: the derived series and episode ids are deterministic
functions of the URL (both are pure functions of the URL here, so two
extractions of the same URL agree); the random fallback (`none`) is taken
by `generateId` exactly when the URL has no trailing path segment (it is
empty or ends in `/`), and by `generateEpisodeId` exactly when the URL is
the empty string. -/
theorem c9_id_derivation (url : String) :
    (generateId url = none ↔ (url.data = [] ∨ url.data.getLast? = some '/')) ∧
    (generateEpisodeId url = none ↔ url = "") := by
  have hempty_iff : url = "" ↔ url.data = [] := by
    rw [String.ext_iff]
  constructor
  · cases h : (splitOnChar '/' url.data).getLast? with
    | none =>
      rw [List.getLast?_eq_none_iff] at h
      exact absurd h (splitOnChar_ne_nil '/' url.data)
    | some seg =>
      cases seg with
      | nil =>
        have hr := (splitOnChar_getLast_empty '/' url.data).mp h
        simp only [generateId, h, List.isEmpty_nil, if_true]
        exact iff_of_true trivial hr
      | cons a s =>
        have hiff := splitOnChar_getLast_empty '/' url.data
        rw [h] at hiff
        simp only [generateId, h]
        rw [if_neg (by simp)]
        constructor
        · intro hj
          exact absurd hj (by simp)
        · intro hr
          have := hiff.mpr hr
          simp at this
  · simp only [generateEpisodeId]
    rw [hempty_iff]
    cases hs : splitOnChar '/' url.data with
    | nil => exact absurd hs (splitOnChar_ne_nil '/' url.data)
    | cons p ps =>
      cases ps with
      | nil =>
        have hp : p = url.data := splitOnChar_eq_singleton '/' url.data p hs
        subst hp
        rw [show (([url.data] : List (List Char)).length - 2) = 0 from rfl]
        rw [List.drop_zero]
        rw [show jsJoin '-' [url.data] = url.data from rfl]
        cases hd : url.data.isEmpty
        · rw [if_neg (by simp)]
          have hne : url.data ≠ [] := by
            intro h
            rw [h] at hd
            simp at hd
          constructor
          · intro hj
            exact absurd hj (by simp)
          · intro hj
            exact absurd hj hne
        · rw [if_pos rfl]
          rw [List.isEmpty_iff] at hd
          exact iff_of_true rfl hd
      | cons q qs =>
        have hurl : url.data ≠ [] := by
          intro hd
          rw [hd] at hs
          rw [show splitOnChar '/' [] = [[]] from rfl] at hs
          simp at hs
        have hlen2 : ((p :: q :: qs : List (List Char)).drop
            ((p :: q :: qs : List (List Char)).length - 2)).length = 2 := by
          rw [List.length_drop]
          simp only [List.length_cons]
          omega
        have hjoin : (jsJoin '-' ((p :: q :: qs : List (List Char)).drop
            ((p :: q :: qs : List (List Char)).length - 2))).isEmpty = false := by
          cases hd : (p :: q :: qs : List (List Char)).drop
              ((p :: q :: qs : List (List Char)).length - 2) with
          | nil => rw [hd] at hlen2; simp at hlen2
          | cons a t =>
            cases t with
            | nil => rw [hd] at hlen2; simp at hlen2
            | cons b t' =>
              rw [show jsJoin '-' (a :: b :: t') = a ++ '-' :: jsJoin '-' (b :: t')
                from rfl]
              simp
        rw [if_neg (by rw [hjoin]; simp)]
        constructor
        · intro hj
          exact absurd hj (by simp)
        · intro hj
          exact absurd hj hurl

/-! ## Association-list maps (JS `Map` and the file-system view)

JS `Map.set` keeps the key-value association; the model keeps the same
association (erase the key, push the pair), which preserves lookups and
the entry set. -/

def alGet {α : Type} : List (String × α) → String → Option α
  | [], _ => none
  | (k, v) :: rest, key => if k == key then some v else alGet rest key

def alErase {α : Type} : List (String × α) → String → List (String × α)
  | [], _ => []
  | (k, v) :: rest, key =>
    if k == key then alErase rest key else (k, v) :: alErase rest key

def alSet {α : Type} (m : List (String × α)) (key : String) (v : α) :
    List (String × α) :=
  (key, v) :: alErase m key

theorem alGet_set_self {α : Type} (m : List (String × α)) (k : String) (v : α) :
    alGet (alSet m k v) k = some v := by
  simp [alSet, alGet]

theorem alGet_erase {α : Type} (m : List (String × α)) (k key : String) :
    alGet (alErase m k) key = if k == key then none else alGet m key := by
  induction m with
  | nil => simp [alErase, alGet]
  | cons kv rest ih =>
    obtain ⟨k1, v1⟩ := kv
    by_cases h1 : k1 = k
    · subst h1
      rw [show alErase ((k1, v1) :: rest) k1 = alErase rest k1 from by
        simp [alErase]]
      rw [ih]
      by_cases h2 : k1 = key
      · subst h2
        simp
      · simp [alGet, h2]
    · rw [show alErase ((k1, v1) :: rest) k = (k1, v1) :: alErase rest k from by
        simp [alErase, h1]]
      by_cases h2 : k1 = key
      · subst h2
        have hk : (k == k1) = false := by
          simp [beq_iff_eq]
          exact fun he => h1 he.symm
        simp [alGet, hk]
      · simp [alGet, h2, ih]

theorem alGet_set_ne {α : Type} (m : List (String × α)) (k key : String) (v : α)
    (h : key ≠ k) : alGet (alSet m k v) key = alGet m key := by
  have hk : (k == key) = false := by
    simp [beq_iff_eq]
    exact fun he => h he.symm
  simp [alSet, alGet, hk, alGet_erase]

theorem alGet_erase_self {α : Type} (m : List (String × α)) (k : String) :
    alGet (alErase m k) k = none := by
  rw [alGet_erase]
  simp

theorem alGet_erase_ne {α : Type} (m : List (String × α)) (k key : String)
    (h : key ≠ k) : alGet (alErase m k) key = alGet m key := by
  rw [alGet_erase]
  have hk : (k == key) = false := by
    simp [beq_iff_eq]
    exact fun he => h he.symm
  simp [hk]

/-! ## ProxyService

```
rotateProxy(reason: string = 'rotation'): ProxyConfig | null {
  if (this.proxies.length <= 1) {
    logger.warn(...);
    return this.getCurrentProxy();
  }
  const oldProxy = this.proxies[this.currentProxyIndex];
  this.currentProxyIndex = (this.currentProxyIndex + 1) % this.proxies.length;
  const newProxy = this.proxies[this.currentProxyIndex];
  logger.proxySwitch(...);
  return newProxy;
}
```
`getCurrentProxy` also bumps the per-endpoint request counter, which the
state carries; the `lastUsed` date is not modelled. -/

structure ProxyConfig where
  host : String
  port : Nat
  username : Option String
  password : Option String
  label : Option String
deriving DecidableEq

structure ProxyStatEntry where
  requests : Nat
  failures : Nat
deriving DecidableEq

structure ProxyState where
  proxies : List ProxyConfig
  currentProxyIndex : Nat
  proxyStats : List (String × ProxyStatEntry)
deriving DecidableEq

def proxyKey (p : ProxyConfig) : String := p.host ++ ":" ++ toString p.port

def getCurrentProxy (st : ProxyState) : Option ProxyConfig × ProxyState :=
  if st.proxies.length = 0 then (none, st)
  else
    match st.proxies[st.currentProxyIndex]? with
    | none => (none, st)
    | some proxy =>
      let key := proxyKey proxy
      let stats := (alGet st.proxyStats key).getD { requests := 0, failures := 0 }
      let newStats : ProxyStatEntry := { stats with requests := stats.requests + 1 }
      (some proxy, { st with proxyStats := alSet st.proxyStats key newStats })

def rotateProxy (st : ProxyState) : Option ProxyConfig × ProxyState :=
  if st.proxies.length ≤ 1 then getCurrentProxy st
  else
    let newIndex := (st.currentProxyIndex + 1) % st.proxies.length
    (st.proxies[newIndex]?, { st with currentProxyIndex := newIndex })

/-- Iterated rotation (the state after n calls to `rotateProxy`). -/
def rotateN : Nat → ProxyState → ProxyState
  | 0, st => st
  | n + 1, st => rotateN n (rotateProxy st).2

theorem getCurrentProxy_snd (st : ProxyState) :
    (getCurrentProxy st).2.currentProxyIndex = st.currentProxyIndex ∧
    (getCurrentProxy st).2.proxies = st.proxies := by
  unfold getCurrentProxy
  by_cases h : st.proxies.length = 0
  · simp [h]
  · rw [if_neg h]
    cases st.proxies[st.currentProxyIndex]? <;> simp

theorem getCurrentProxy_fst (st : ProxyState) (h : st.proxies.length ≠ 0) :
    (getCurrentProxy st).1 = st.proxies[st.currentProxyIndex]? := by
  unfold getCurrentProxy
  rw [if_neg h]
  cases hp : st.proxies[st.currentProxyIndex]? <;> simp [hp]

theorem rotateProxy_of_two_le (st : ProxyState) (h : 2 ≤ st.proxies.length) :
    (rotateProxy st).2 =
      { st with currentProxyIndex :=
          (st.currentProxyIndex + 1) % st.proxies.length } := by
  unfold rotateProxy
  rw [if_neg (by omega)]

theorem rotateN_succ (n : Nat) (st : ProxyState) (h : 2 ≤ st.proxies.length) :
    (rotateN (n + 1) st).proxies = st.proxies ∧
    (rotateN (n + 1) st).currentProxyIndex =
      (st.currentProxyIndex + (n + 1)) % st.proxies.length := by
  induction n generalizing st with
  | zero =>
    show (rotateN 0 (rotateProxy st).2).proxies = _ ∧
      (rotateN 0 (rotateProxy st).2).currentProxyIndex = _
    rw [rotateProxy_of_two_le st h]
    exact ⟨rfl, rfl⟩
  | succ n ih =>
    show (rotateN (n + 1) (rotateProxy st).2).proxies = _ ∧
      (rotateN (n + 1) (rotateProxy st).2).currentProxyIndex = _
    rw [rotateProxy_of_two_le st h]
    have h2 : 2 ≤ ({ st with currentProxyIndex :=
        (st.currentProxyIndex + 1) % st.proxies.length } : ProxyState).proxies.length := h
    obtain ⟨hp, hi⟩ := ih _ h2
    refine ⟨hp, ?_⟩
    rw [hi]
    show ((st.currentProxyIndex + 1) % st.proxies.length + (n + 1)) %
        st.proxies.length = _
    rw [Nat.mod_add_mod]
    congr 1
    omega

/-- Claim C5: for a proxy list of length `L ≥ 2`, `L` rotations return the
current index to its starting value (rotation is circular with period
`L`), and for a list of length 1 a rotation is a no-op on the index and
returns the one current endpoint. -/
theorem c5_proxy_rotation (st : ProxyState) (L : Nat)
    (hL : st.proxies.length = L) :
    (2 ≤ L → st.currentProxyIndex < L →
      (rotateN L st).currentProxyIndex = st.currentProxyIndex ∧
      (rotateN L st).proxies = st.proxies) ∧
    (L = 1 →
      (rotateProxy st).2.currentProxyIndex = st.currentProxyIndex ∧
      (rotateProxy st).2.proxies = st.proxies ∧
      (rotateProxy st).1 = st.proxies[st.currentProxyIndex]?) := by
  constructor
  · intro h2 hidx
    obtain ⟨k, hk⟩ : ∃ k, L = k + 1 := ⟨L - 1, by omega⟩
    subst hk
    obtain ⟨hp, hi⟩ := rotateN_succ k st (by omega)
    refine ⟨?_, hp⟩
    rw [hi, hL, Nat.add_mod_right]
    exact Nat.mod_eq_of_lt hidx
  · intro h1
    have hrot : rotateProxy st = getCurrentProxy st := by
      unfold rotateProxy
      rw [if_pos (by omega)]
    obtain ⟨hi, hp⟩ := getCurrentProxy_snd st
    rw [hrot]
    exact ⟨hi, hp, getCurrentProxy_fst st (by omega)⟩

def c5proxyA : ProxyConfig := { host := "h1", port := 1, username := none, password := none, label := none }

def c5proxyB : ProxyConfig := { host := "h2", port := 2, username := none, password := none, label := none }

def c5stTwo : ProxyState := { proxies := [c5proxyA, c5proxyB], currentProxyIndex := 0, proxyStats := [] }

def c5stOne : ProxyState := { proxies := [c5proxyA], currentProxyIndex := 0, proxyStats := [] }

/-- Witness for C5 at a two-endpoint list and a one-endpoint list. -/
theorem c5_proxy_rotation_witness :
    ((rotateN 2 c5stTwo).currentProxyIndex = c5stTwo.currentProxyIndex ∧
      (rotateN 2 c5stTwo).proxies = c5stTwo.proxies) ∧
    ((rotateProxy c5stOne).2.currentProxyIndex = c5stOne.currentProxyIndex ∧
      (rotateProxy c5stOne).2.proxies = c5stOne.proxies ∧
      (rotateProxy c5stOne).1 = c5stOne.proxies[c5stOne.currentProxyIndex]?) :=
  ⟨(c5_proxy_rotation c5stTwo 2 rfl).1 (by omega) (by simp [c5stTwo]),
   (c5_proxy_rotation c5stOne 1 rfl).2 rfl⟩

/-! ## ImageStorageService

```
private async downloadAndProcessImage(imageUrl, fullLocalPath, relativePath, options) {
  try {
    if (await this.fileExists(fullLocalPath)) {
      const existingSize = await this.getFileSize(fullLocalPath);
      return { cdnUrl: imageUrl, localPath: relativePath, fileSize: existingSize, processed: true };
    }
    const response = await fetch(imageUrl);
    if (!response.ok) throw new Error(...);
    const buffer = Buffer.from(await response.arrayBuffer());
    const originalSizeMB = buffer.length / (1024 * 1024);
    if (originalSizeMB > this.maxFileSizeMB) throw new Error('Image too large: ...');
    const processedBuffer = await this.processImageBuffer(buffer, options);
    await writeFile(fullLocalPath, processedBuffer);
    return { cdnUrl: imageUrl, localPath: relativePath, fileSize: processedBuffer.length, processed: true };
  } catch (error) { ...; throw error; }
}
```

The file system is the association list path → byte size; the network is
an oracle giving `response.ok` and the payload length per URL; the sharp
transformation is an oracle from original to processed byte length (only
lengths are observable here).  `originalSizeMB > 10` over real division
is exactly `bytes > 10 * 1024 * 1024`.  The effect trace records the
externally visible actions. -/

structure ImageStorageResult where
  cdnUrl : String
  localPath : String
  fileSize : Nat
  processed : Bool
  processingError : Option String
deriving DecidableEq

inductive ImgEffect
  | fetch (url : String)
  | transform (url : String)
  | write (path : String)
deriving DecidableEq

structure NetworkM where
  ok : String → Bool
  bytes : String → Nat

/-- `this.maxFileSizeMB = 10`, in bytes. -/
def maxFileSizeBytes : Nat := 10 * 1024 * 1024

def downloadAndProcessImage (net : NetworkM) (tr : Nat → Nat)
    (fs : List (String × Nat)) (imageUrl fullLocalPath relativePath : String) :
    Except String ImageStorageResult × List (String × Nat) × List ImgEffect :=
  match alGet fs fullLocalPath with
  | some existingSize =>
    (Except.ok ⟨imageUrl, relativePath, existingSize, true, none⟩, fs, [])
  | none =>
    if net.ok imageUrl then
      if maxFileSizeBytes < net.bytes imageUrl then
        (Except.error "Image too large", fs, [ImgEffect.fetch imageUrl])
      else
        (Except.ok ⟨imageUrl, relativePath, tr (net.bytes imageUrl), true, none⟩,
         alSet fs fullLocalPath (tr (net.bytes imageUrl)),
         [ImgEffect.fetch imageUrl, ImgEffect.transform imageUrl,
          ImgEffect.write fullLocalPath])
    else
      (Except.error "HTTP error", fs, [ImgEffect.fetch imageUrl])

/-- `String(i + 1).padStart(3, '0')`. -/
def padStart3 (n : Nat) : String :=
  let s := toString n
  if 3 ≤ s.length then s
  else String.mk (List.replicate (3 - s.length) '0') ++ s

def episodeFileName (i : Nat) : String := padStart3 (i + 1) ++ ".webp"

def episodeRelPath (seriesId episodeId : String) (i : Nat) : String :=
  "series/" ++ seriesId ++ "/episodes/" ++ episodeId ++ "/" ++ episodeFileName i

def episodeLocalPath (storageDir seriesId episodeId : String) (i : Nat) : String :=
  storageDir ++ "/series/" ++ seriesId ++ "/episodes/" ++ episodeId ++ "/" ++
    episodeFileName i

/-- One loop iteration of `storeEpisodeImages`: the try/catch converts a
thrown error into a failed per-image result carrying the original remote
URL. -/
def storeOneEpisodeImage (net : NetworkM) (tr : Nat → Nat)
    (storageDir seriesId episodeId : String) (i : Nat) (url : String)
    (fs : List (String × Nat)) :
    ImageStorageResult × List (String × Nat) × List ImgEffect :=
  let d := downloadAndProcessImage net tr fs url
    (episodeLocalPath storageDir seriesId episodeId i)
    (episodeRelPath seriesId episodeId i)
  match d.1 with
  | Except.ok r => (r, d.2.1, d.2.2)
  | Except.error e =>
    (⟨url, episodeRelPath seriesId episodeId i, 0, false, some e⟩, d.2.1, d.2.2)

def storeEpisodeImagesAux (net : NetworkM) (tr : Nat → Nat)
    (storageDir seriesId episodeId : String) :
    List String → Nat → List (String × Nat) →
    List ImageStorageResult × List (String × Nat) × List ImgEffect
  | [], _, fs => ([], fs, [])
  | url :: rest, i, fs =>
    let one := storeOneEpisodeImage net tr storageDir seriesId episodeId i url fs
    let restRes :=
      storeEpisodeImagesAux net tr storageDir seriesId episodeId rest (i + 1) one.2.1
    (one.1 :: restRes.1, restRes.2.1, one.2.2 ++ restRes.2.2)

/-- `ImageStorageService.storeEpisodeImages` (results, final file system,
effect trace). -/
def storeEpisodeImages (net : NetworkM) (tr : Nat → Nat) (storageDir : String)
    (imageUrls : List String) (seriesId episodeId : String)
    (fs : List (String × Nat)) :
    List ImageStorageResult × List (String × Nat) × List ImgEffect :=
  storeEpisodeImagesAux net tr storageDir seriesId episodeId imageUrls 0 fs

/-- Claim C2: when the deterministic local path already holds a file, a
second acquisition of the same URL short-circuits: it returns a
successful result carrying the existing file size, leaves the file
system unchanged, and performs no fetch, transform or write (empty
effect trace); moreover after any successful acquisition, repeating the
same acquisition produces an empty effect trace (no second network
fetch). -/
theorem c2_idempotent_short_circuit (net : NetworkM) (tr : Nat → Nat)
    (fs : List (String × Nat)) (imageUrl fullLocalPath relativePath : String)
    (sz : Nat) (h : alGet fs fullLocalPath = some sz) :
    downloadAndProcessImage net tr fs imageUrl fullLocalPath relativePath =
      (Except.ok ⟨imageUrl, relativePath, sz, true, none⟩, fs, []) ∧
    (∀ (net2 : NetworkM) (tr2 : Nat → Nat) (fs2 : List (String × Nat))
        (u lp rp : String) (r : ImageStorageResult),
      (downloadAndProcessImage net2 tr2 fs2 u lp rp).1 = Except.ok r →
      (downloadAndProcessImage net2 tr2
        (downloadAndProcessImage net2 tr2 fs2 u lp rp).2.1 u lp rp).2.2 = []) := by
  constructor
  · unfold downloadAndProcessImage
    rw [h]
  · intro net2 tr2 fs2 u lp rp r hok
    cases hg : alGet fs2 lp with
    | some sz2 =>
      simp only [downloadAndProcessImage, hg]
    | none =>
      by_cases hnet : net2.ok u
      · by_cases hbig : maxFileSizeBytes < net2.bytes u
        · simp [downloadAndProcessImage, hg, hnet, hbig] at hok
        · simp only [downloadAndProcessImage, hg, hnet, if_true, if_neg hbig]
          rw [alGet_set_self]
      · simp [downloadAndProcessImage, hg, hnet] at hok

/-- Witness for C2: a file of 42 bytes already at the path. -/
theorem c2_idempotent_short_circuit_witness :
    downloadAndProcessImage ⟨fun _ => true, fun _ => 5⟩ (fun n => n)
        [("p", 42)] "u" "p" "r" =
      (Except.ok ⟨"u", "r", 42, true, none⟩, [("p", 42)], []) ∧
    (∀ (net2 : NetworkM) (tr2 : Nat → Nat) (fs2 : List (String × Nat))
        (u lp rp : String) (r : ImageStorageResult),
      (downloadAndProcessImage net2 tr2 fs2 u lp rp).1 = Except.ok r →
      (downloadAndProcessImage net2 tr2
        (downloadAndProcessImage net2 tr2 fs2 u lp rp).2.1 u lp rp).2.2 = []) :=
  c2_idempotent_short_circuit ⟨fun _ => true, fun _ => 5⟩ (fun n => n)
    [("p", 42)] "u" "p" "r" 42 rfl

theorem storeAux_append (net : NetworkM) (tr : Nat → Nat)
    (sd sid eid : String) (xs ys : List String) : ∀ (i : Nat)
    (fs : List (String × Nat)),
    storeEpisodeImagesAux net tr sd sid eid (xs ++ ys) i fs =
      ((storeEpisodeImagesAux net tr sd sid eid xs i fs).1 ++
        (storeEpisodeImagesAux net tr sd sid eid ys (i + xs.length)
          (storeEpisodeImagesAux net tr sd sid eid xs i fs).2.1).1,
       (storeEpisodeImagesAux net tr sd sid eid ys (i + xs.length)
          (storeEpisodeImagesAux net tr sd sid eid xs i fs).2.1).2.1,
       (storeEpisodeImagesAux net tr sd sid eid xs i fs).2.2 ++
        (storeEpisodeImagesAux net tr sd sid eid ys (i + xs.length)
          (storeEpisodeImagesAux net tr sd sid eid xs i fs).2.1).2.2) := by
  induction xs with
  | nil =>
    intro i fs
    simp [storeEpisodeImagesAux]
  | cons u rest ih =>
    intro i fs
    simp only [List.cons_append, storeEpisodeImagesAux, List.length_cons,
      List.append_eq]
    rw [ih]
    rw [show i + (rest.length + 1) = i + 1 + rest.length from by omega]
    simp [List.append_assoc]

theorem storeAux_length (net : NetworkM) (tr : Nat → Nat)
    (sd sid eid : String) : ∀ (urls : List String) (i : Nat)
    (fs : List (String × Nat)),
    (storeEpisodeImagesAux net tr sd sid eid urls i fs).1.length = urls.length := by
  intro urls
  induction urls with
  | nil => intro i fs; simp [storeEpisodeImagesAux]
  | cons u rest ih =>
    intro i fs
    simp [storeEpisodeImagesAux, ih]

/-- Claim C3: an image whose payload exceeds the 10MB cap is rejected
before any transformation (its effect trace is just the fetch), the
per-image result is failed (`processed = false`) with `cdnUrl` the
original remote URL unchanged, the file system is not touched by it, the
sibling images before and after it are processed exactly as they would
be without it, and the batch returns one result per URL (it never
throws). -/
theorem c3_oversized_image_isolated (net : NetworkM) (tr : Nat → Nat)
    (sd sid eid : String) (u1 u2 : List String) (u : String)
    (fs fs1 fs2 : List (String × Nat)) (rs1 rs2 : List ImageStorageResult)
    (e1 e2 : List ImgEffect)
    (h1 : storeEpisodeImagesAux net tr sd sid eid u1 0 fs = (rs1, fs1, e1))
    (hfile : alGet fs1 (episodeLocalPath sd sid eid u1.length) = none)
    (hok : net.ok u = true)
    (hbig : maxFileSizeBytes < net.bytes u)
    (h2 : storeEpisodeImagesAux net tr sd sid eid u2 (u1.length + 1) fs1 =
      (rs2, fs2, e2)) :
    storeEpisodeImages net tr sd (u1 ++ u :: u2) sid eid fs =
      (rs1 ++ (⟨u, episodeRelPath sid eid u1.length, 0, false,
          some "Image too large"⟩ : ImageStorageResult) :: rs2,
       fs2, e1 ++ ImgEffect.fetch u :: e2) ∧
    (downloadAndProcessImage net tr fs1 u (episodeLocalPath sd sid eid u1.length)
      (episodeRelPath sid eid u1.length)).2.2 = [ImgEffect.fetch u] ∧
    (storeEpisodeImages net tr sd (u1 ++ u :: u2) sid eid fs).1.length =
      (u1 ++ u :: u2).length := by
  have hd : downloadAndProcessImage net tr fs1 u
      (episodeLocalPath sd sid eid u1.length)
      (episodeRelPath sid eid u1.length) =
      (Except.error "Image too large", fs1, [ImgEffect.fetch u]) := by
    simp only [downloadAndProcessImage, hfile, hok, if_true, if_pos hbig]
  have hone : storeOneEpisodeImage net tr sd sid eid u1.length u fs1 =
      (⟨u, episodeRelPath sid eid u1.length, 0, false, some "Image too large"⟩,
       fs1, [ImgEffect.fetch u]) := by
    simp only [storeOneEpisodeImage, hd]
  refine ⟨?_, by rw [hd], storeAux_length net tr sd sid eid _ 0 fs⟩
  show storeEpisodeImagesAux net tr sd sid eid (u1 ++ u :: u2) 0 fs = _
  rw [storeAux_append net tr sd sid eid u1 (u :: u2) 0 fs, h1]
  simp only [Nat.zero_add]
  simp only [storeEpisodeImagesAux, hone, h2]
  simp

def c3net : NetworkM :=
  ⟨fun _ => true, fun s => if s == "big" then maxFileSizeBytes + 1 else 5⟩

def c3tr : Nat → Nat := fun n => n

/-- Witness for C3: a 2-image batch whose first image is oversized; the
second image still succeeds and is written. -/
theorem c3_oversized_image_isolated_witness :
    storeEpisodeImages c3net c3tr "st" ["big", "ok1"] "s" "e" [] =
      ([] ++ (⟨"big", episodeRelPath "s" "e" 0, 0, false,
          some "Image too large"⟩ : ImageStorageResult) ::
        [⟨"ok1", episodeRelPath "s" "e" 1, 5, true, none⟩],
       [(episodeLocalPath "st" "s" "e" 1, 5)],
       [] ++ ImgEffect.fetch "big" ::
        [ImgEffect.fetch "ok1", ImgEffect.transform "ok1",
         ImgEffect.write (episodeLocalPath "st" "s" "e" 1)]) ∧
    (downloadAndProcessImage c3net c3tr [] "big"
      (episodeLocalPath "st" "s" "e" 0)
      (episodeRelPath "s" "e" 0)).2.2 = [ImgEffect.fetch "big"] ∧
    (storeEpisodeImages c3net c3tr "st" ["big", "ok1"] "s" "e" []).1.length =
      (["big", "ok1"] : List String).length :=
  c3_oversized_image_isolated c3net c3tr "st" "s" "e" [] ["ok1"] "big"
    [] [] [(episodeLocalPath "st" "s" "e" 1, 5)]
    [] [⟨"ok1", episodeRelPath "s" "e" 1, 5, true, none⟩]
    [] [ImgEffect.fetch "ok1", ImgEffect.transform "ok1",
        ImgEffect.write (episodeLocalPath "st" "s" "e" 1)]
    rfl rfl rfl (by norm_num [c3net, maxFileSizeBytes]) (by decide)

/-! ## UzayManager.getEpisodeImages / ThemesiaManager.getEpisodeImages

Both managers locate an embedded script by a marker substring, extract a
JSON-like payload from it with a regex, and parse it inside try/catch.
The page is the list of script elements (their `textContent`, and for
Themesia also every script `src` attribute); the regex extraction steps,
`JSON.parse` and `atob` are oracles (`none` models a parse failure /
thrown exception). -/

structure ScriptEl where
  textContent : Option String
deriving DecidableEq

/-- JS `String.prototype.split(sep)` for a multi-character separator
(used with `'base64,'`). -/
def splitOnList (pat : List Char) : List Char → List (List Char)
  | [] => [[]]
  | c :: rest =>
    if h : pat ≠ [] ∧ pat.isPrefixOf (c :: rest) then
      [] :: splitOnList pat ((c :: rest).drop pat.length)
    else
      match splitOnList pat rest with
      | [] => [[c]]
      | x :: xs => (c :: x) :: xs
termination_by l => l.length
decreasing_by
  · simp only [List.length_drop, List.length_cons]
    have hp : 0 < pat.length := List.length_pos.mpr h.1
    omega
  · simp only [List.length_cons]
    omega

/-- JS `String.prototype.replaceAll` for a non-empty pattern (used with
pattern backslash-quote, replacement quote). -/
def replaceAllList (pat rep : List Char) : List Char → List Char
  | [] => []
  | c :: rest =>
    if h : pat ≠ [] ∧ pat.isPrefixOf (c :: rest) then
      rep ++ replaceAllList pat rep ((c :: rest).drop pat.length)
    else
      c :: replaceAllList pat rep rest
termination_by l => l.length
decreasing_by
  · simp only [List.length_drop, List.length_cons]
    have hp : 0 < pat.length := List.length_pos.mpr h.1
    omega
  · simp only [List.length_cons]
    omega

def jsReplaceAll (s pat rep : String) : String :=
  String.mk (replaceAllList pat.data rep.data s.data)

/-- One entry of the parsed `series_items` payload: a plain string, or an
object carrying an optional `path` field. -/
inductive UzaySource
  | str (s : String)
  | obj (path : Option String)
deriving DecidableEq

/-- The per-entry mapping of `UzayManager.getEpisodeImages`: strings pass
through; an object path already containing `https://` passes through;
otherwise the CDN prefix is prepended (an absent path interpolates as the
JS string `"undefined"`). -/
def uzayMapSource (src : UzaySource) : String :=
  match src with
  | UzaySource.str s => s
  | UzaySource.obj (some path) =>
    if jsIncludes path "https://" then path
    else "https://cdn1.uzaymanga.com/upload/series/" ++ path
  | UzaySource.obj none => "https://cdn1.uzaymanga.com/upload/series/undefined"

/-- The script whose text contains `'series_items'`, with `\"` unescaped
(`.find(...)?.textContent?.replaceAll('\\"', '"')`). -/
def uzayTargetScript (scripts : List ScriptEl) : Option String :=
  (scripts.find? (fun s =>
    (s.textContent.map (fun t => jsIncludes t "series_items")).getD false)).bind
    (fun s => s.textContent.map (fun t => jsReplaceAll t "\\\"" "\""))

/-- `UzayManager.getEpisodeImages` over a fetched page.  `extractItems`
is the regex oracle for the first match of the lazy pattern between
`series_items":[` and `]`; `jsonParse` is the `JSON.parse` oracle. -/
def uzayGetEpisodeImages (scripts : List ScriptEl)
    (extractItems : String → Option String)
    (jsonParse : String → Option (List UzaySource)) : List String :=
  match uzayTargetScript scripts with
  | none => []
  | some t =>
    match extractItems t with
    | none => []
    | some m =>
      match jsonParse ("[" ++ m ++ "]") with
      | none => []
      | some sources =>
        if sources.length < 2 then []
        else sources.map uzayMapSource

/-- The decoded content of one base64 `src` script:
`try { return atob(src.split('base64,')[1]); } catch { return ''; }`
(a missing second field makes `atob` throw on the stringified
`undefined`, caught to `''`; an `atob` failure is the oracle's `none`). -/
def decodeBase64Script (atobO : String → Option String) (src : String) : String :=
  if src = "" then ""
  else
    match (splitOnList ("base64,".data) src.data)[1]? with
    | none => ""
    | some part => (atobO (String.mk part)).getD ""

/-- The inline `body script` whose text contains `'ts_reader.run'`. -/
def themesiaTarget1 (inl : List ScriptEl) : Option String :=
  (inl.find? (fun s =>
    (s.textContent.map (fun t => jsIncludes t "ts_reader.run")).getD false)).bind
    (fun s => s.textContent)

/-- The decoded contents of the base64 `src` scripts. -/
def themesiaBase64Contents (srcAttrs : List (Option String))
    (atobO : String → Option String) : List String :=
  ((srcAttrs.filterMap id).filter (fun src => jsIncludes src "base64")).map
    (decodeBase64Script atobO)

/-- The script text `ThemesiaManager.getEpisodeImages` works on: the
inline script if found, otherwise the first decoded base64 script that
contains the marker. -/
def themesiaTarget (inl : List ScriptEl) (srcAttrs : List (Option String))
    (atobO : String → Option String) : Option String :=
  match themesiaTarget1 inl with
  | some t => some t
  | none =>
    (themesiaBase64Contents srcAttrs atobO).find?
      (fun c => jsIncludes c "ts_reader.run")

/-- `ThemesiaManager.getEpisodeImages`.  `matchRun` is the oracle for the
capture group of the regex over `ts_reader.run(...)`; `matchImages` for
the lazy pattern between `images":[` and `]`; `jsonParse` for
`JSON.parse`. -/
def themesiaGetEpisodeImages (inl : List ScriptEl)
    (srcAttrs : List (Option String)) (atobO : String → Option String)
    (matchRun : String → Option String) (matchImages : String → Option String)
    (jsonParse : String → Option (List String)) : List String :=
  match themesiaTarget inl srcAttrs atobO with
  | none => []
  | some t =>
    if t = "" then []
    else
      match matchRun t with
      | none => []
      | some g =>
        match matchImages g with
        | none => []
        | some m =>
          match jsonParse ("[" ++ m ++ "]") with
          | none => []
          | some imgs => imgs

/-- Claim C4: both episode-image extractors return the empty sequence
when the expected script marker is absent anywhere on the page, and
return the empty sequence when the embedded payload is present but
`JSON.parse` fails (the exception is caught; the functions are total, so
no parse exception reaches the caller). -/
theorem c4_episode_images_error_tolerance :
    (∀ (scripts : List ScriptEl) (extractItems : String → Option String)
        (jsonParse : String → Option (List UzaySource)),
      (∀ s ∈ scripts,
        (s.textContent.map (fun t => jsIncludes t "series_items")).getD false =
          false) →
      uzayGetEpisodeImages scripts extractItems jsonParse = []) ∧
    (∀ (scripts : List ScriptEl) (extractItems : String → Option String)
        (jsonParse : String → Option (List UzaySource)),
      (∀ x, jsonParse x = none) →
      uzayGetEpisodeImages scripts extractItems jsonParse = []) ∧
    (∀ (inl : List ScriptEl) (srcAttrs : List (Option String))
        (atobO : String → Option String)
        (matchRun matchImages : String → Option String)
        (jsonParse : String → Option (List String)),
      (∀ s ∈ inl,
        (s.textContent.map (fun t => jsIncludes t "ts_reader.run")).getD false =
          false) →
      (∀ src ∈ (srcAttrs.filterMap id).filter (fun src => jsIncludes src "base64"),
        jsIncludes (decodeBase64Script atobO src) "ts_reader.run" = false) →
      themesiaGetEpisodeImages inl srcAttrs atobO matchRun matchImages
        jsonParse = []) ∧
    (∀ (inl : List ScriptEl) (srcAttrs : List (Option String))
        (atobO : String → Option String)
        (matchRun matchImages : String → Option String)
        (jsonParse : String → Option (List String)),
      (∀ x, jsonParse x = none) →
      themesiaGetEpisodeImages inl srcAttrs atobO matchRun matchImages
        jsonParse = []) := by
  refine ⟨?_, ?_, ?_, ?_⟩
  · intro scripts extractItems jsonParse h
    have hf : scripts.find? (fun s =>
        (s.textContent.map (fun t => jsIncludes t "series_items")).getD false) =
          none := by
      rw [List.find?_eq_none]
      intro x hx
      rw [h x hx]
      simp
    have ht : uzayTargetScript scripts = none := by
      unfold uzayTargetScript
      rw [hf]
      rfl
    simp [uzayGetEpisodeImages, ht]
  · intro scripts extractItems jsonParse hjp
    cases ht : uzayTargetScript scripts with
    | none => simp [uzayGetEpisodeImages, ht]
    | some t =>
      cases he : extractItems t with
      | none => simp [uzayGetEpisodeImages, ht, he]
      | some m => simp [uzayGetEpisodeImages, ht, he, hjp ("[" ++ m ++ "]")]
  · intro inl srcAttrs atobO matchRun matchImages jsonParse h1 h2
    have hf1 : themesiaTarget1 inl = none := by
      unfold themesiaTarget1
      rw [List.find?_eq_none.mpr (fun x hx => by rw [h1 x hx]; simp)]
      rfl
    have hfb : (themesiaBase64Contents srcAttrs atobO).find?
        (fun c => jsIncludes c "ts_reader.run") = none := by
      rw [List.find?_eq_none]
      intro c hc
      obtain ⟨src, hsrc, hdec⟩ := List.mem_map.mp hc
      rw [← hdec, h2 src hsrc]
      simp
    have ht : themesiaTarget inl srcAttrs atobO = none := by
      unfold themesiaTarget
      rw [hf1, hfb]
    simp [themesiaGetEpisodeImages, ht]
  · intro inl srcAttrs atobO matchRun matchImages jsonParse hjp
    cases ht : themesiaTarget inl srcAttrs atobO with
    | none => simp [themesiaGetEpisodeImages, ht]
    | some t =>
      by_cases hte : t = ""
      · simp [themesiaGetEpisodeImages, ht, hte]
      · cases hr : matchRun t with
        | none => simp [themesiaGetEpisodeImages, ht, hte, hr]
        | some g =>
          cases hi : matchImages g with
          | none => simp [themesiaGetEpisodeImages, ht, hte, hr, hi]
          | some m =>
            simp [themesiaGetEpisodeImages, ht, hte, hr, hi,
              hjp ("[" ++ m ++ "]")]

/-- Claim C10 (implicit): when the Uzay `series_items` payload parses
successfully to a list with fewer than 2 entries, `getEpisodeImages`
returns the empty list — a one-image payload yields zero images, not that
image. -/
theorem c10_uzay_short_payload_dropped (scripts : List ScriptEl)
    (extractItems : String → Option String) (l : List UzaySource)
    (h : l.length < 2) :
    uzayGetEpisodeImages scripts extractItems (fun _ => some l) = [] := by
  cases ht : uzayTargetScript scripts with
  | none => simp [uzayGetEpisodeImages, ht]
  | some t =>
    cases he : extractItems t with
    | none => simp [uzayGetEpisodeImages, ht, he]
    | some m => simp [uzayGetEpisodeImages, ht, he, h]

/-- Witness for C10: a page whose payload holds exactly one image still
yields no images. -/
theorem c10_uzay_short_payload_dropped_witness :
    ([UzaySource.str "a.jpg"] : List UzaySource).length < 2 ∧
    uzayGetEpisodeImages [⟨some "series_items"⟩]
      (fun _ => some "\"a.jpg\"") (fun _ => some [UzaySource.str "a.jpg"]) = [] :=
  ⟨by decide, c10_uzay_short_payload_dropped _ _ _ (by decide)⟩

/-! ## ScrapingService.processScrapingJob and BaseManager lifecycle

```
private async processScrapingJob(data: ScrapingJobData): Promise<void> {
  const source = await this.getSource(data.sourceId);
  if (!source || !source.isActive) throw new Error(`Source ... not found or inactive`);
  const manager = this.createManager(source);
  await manager.initialize();
  try {
    switch (data.type) { ... }
  } finally {
    await manager.close();
  }
}
```

`initialize` launches the browser, creates a context (`this.context`),
creates a page (`this.page`), sets headers/routes and navigates to the
source domain; any of these awaits can throw.  `close` closes
`this.page` and `this.context`.  Crucially, `initialize` runs OUTSIDE
the try/finally.  The model: `InitBehavior` says which initialize step
succeeds, `initializeRun` returns (success?, page/context resources held
when initialize returns or throws), the job body's outcome is an
abstract `Except`, and `processScrapingJob` returns the job outcome plus
the resources still held at job termination. -/

structure SSource where
  id : String
  isActive : Bool
  theme : String
deriving DecidableEq

inductive BrowserRes
  | context
  | page
deriving DecidableEq

structure InitBehavior where
  launchOk : Bool
  newContextOk : Bool
  newPageOk : Bool
  gotoOk : Bool
deriving DecidableEq

/-- `BaseManager.initialize`: success flag, and the page/context
resources acquired by the time it returns or throws.  `gotoOk` covers
the steps after page creation (headers, routing, the initial
navigation). -/
def initializeRun (b : InitBehavior) : Bool × List BrowserRes :=
  if !b.launchOk then (false, [])
  else if !b.newContextOk then (false, [])
  else if !b.newPageOk then (false, [BrowserRes.context])
  else if !b.gotoOk then (false, [BrowserRes.context, BrowserRes.page])
  else (true, [BrowserRes.context, BrowserRes.page])

/-- `ScrapingService.createManager`: the closed theme set; anything else
throws `Unknown theme`. -/
def createManager (theme : String) : Except String Unit :=
  if theme = "themesia" then Except.ok ()
  else if theme = "madara" then Except.ok ()
  else if theme = "uzay" then Except.ok ()
  else Except.error ("Unknown theme: " ++ theme)

/-- `ScrapingService.processScrapingJob`: job outcome and the browser
resources still held when the job terminates.  When `initialize`
completes, the try/finally guarantees `close` runs on both the normal
and the throwing body path, releasing page and context (held list
empty); when `initialize` itself throws, nothing releases what it had
already acquired. -/
def processScrapingJob (getSrc : String → Option SSource) (b : InitBehavior)
    (body : Except String Unit) (sourceId : String) :
    Except String Unit × List BrowserRes :=
  match getSrc sourceId with
  | none => (Except.error ("Source " ++ sourceId ++ " not found or inactive"), [])
  | some src =>
    if src.isActive then
      match createManager src.theme with
      | Except.error e => (Except.error e, [])
      | Except.ok _ =>
        if (initializeRun b).1 then (body, [])
        else (Except.error "initialize failed", (initializeRun b).2)
    else (Except.error ("Source " ++ sourceId ++ " not found or inactive"), [])

/-- Counterexample to C6 as stated: a job whose `initialize` throws at
the initial navigation (after page and context were acquired) terminates
with the page and context still held — `initialize` runs outside the
try/finally, so not every exit path releases the acquired browser
resources. -/
theorem c6_leak_counterexample :
    (processScrapingJob (fun _ => some ⟨"s1", true, "madara"⟩)
      ⟨true, true, true, false⟩ (Except.ok ()) "s1").1 =
        Except.error "initialize failed" ∧
    (processScrapingJob (fun _ => some ⟨"s1", true, "madara"⟩)
      ⟨true, true, true, false⟩ (Except.ok ()) "s1").2 =
        [BrowserRes.context, BrowserRes.page] :=
  ⟨rfl, rfl⟩

/-- Claim C6, amended: once `initialize` completes successfully, the page
and context are released at job end on every exit path — including when
the job body throws — because the body runs inside try/finally with
`close` in the finally block.  (An exception inside `initialize` itself
still leaks, per the counterexample.) -/
theorem c6_release_on_all_body_exits (getSrc : String → Option SSource)
    (b : InitBehavior) (body : Except String Unit) (sid : String)
    (hinit : (initializeRun b).1 = true) :
    (processScrapingJob getSrc b body sid).2 = [] := by
  unfold processScrapingJob
  cases hg : getSrc sid with
  | none => rfl
  | some src =>
    cases ha : src.isActive
    · simp [ha]
    · simp only [ha, if_true]
      cases hc : createManager src.theme with
      | error e => rfl
      | ok u => simp [hinit]

/-- Witness for the amended C6: a fully successful initialize and a
throwing body still end with no held resources. -/
theorem c6_release_on_all_body_exits_witness :
    (initializeRun ⟨true, true, true, true⟩).1 = true ∧
    (processScrapingJob (fun _ => some ⟨"s1", true, "madara"⟩)
      ⟨true, true, true, true⟩ (Except.error "boom") "s1").2 = [] :=
  ⟨rfl, c6_release_on_all_body_exits _ _ _ _ rfl⟩

/-! ## Job retry semantics (BullMQ) for C8

```
await this.scrapingQueue.add('scrape', data, {
  priority, attempts: 3,
  backoff: { type: 'exponential', delay: 2000 }
});
```
Every job is admitted with the same attempt cap of 3; the worker rethrows
every error, so a failing job is re-executed until the cap is exhausted
regardless of the kind of error. -/

def jobAttempts : Nat := 3

/-- The queue's execution of one job: run the processor, retry on error
up to the remaining attempt budget, and report the outcome together with
the number of attempts made. -/
def runJobAux (proc : Nat → Except String Unit) :
    Nat → Nat → Except String Unit × Nat
  | 0, made => (Except.error "no attempts", made)
  | n + 1, made =>
    match proc made with
    | Except.ok u => (Except.ok u, made + 1)
    | Except.error e =>
      if n = 0 then (Except.error e, made + 1)
      else runJobAux proc n (made + 1)

def runQueuedJob (proc : Nat → Except String Unit) : Except String Unit × Nat :=
  runJobAux proc jobAttempts 0

/-- Counterexample to C8 as stated: a job whose source id resolves to no
source fails with a configuration error, and the queue still executes it
`jobAttempts = 3` times (two retries with the transient-failure backoff
policy) — configuration errors are retried exactly like transient
failures, consuming the full attempt budget. -/
theorem c8_config_error_retried_counterexample :
    runQueuedJob (fun _ =>
      (processScrapingJob (fun _ => none) ⟨true, true, true, true⟩
        (Except.ok ()) "missing").1) =
      (Except.error "Source missing not found or inactive", 3) := rfl

/-- Claim C8, amended: a job whose source id resolves to no source, to an
inactive source, or to a source with an unknown theme tag raises an error
that surfaces the job as failed — but such configuration errors ARE
retried: the job is executed the full `jobAttempts = 3` times, consuming
the same retry/backoff attempts as transient failures. -/
theorem c8_config_error_fails_and_is_retried (getSrc : String → Option SSource)
    (b : InitBehavior) (sid : String)
    (h : getSrc sid = none ∨
      (∃ src, getSrc sid = some src ∧ src.isActive = false) ∨
      (∃ src, getSrc sid = some src ∧ src.isActive = true ∧
        src.theme ≠ "themesia" ∧ src.theme ≠ "madara" ∧ src.theme ≠ "uzay")) :
    ∃ e, (processScrapingJob getSrc b (Except.ok ()) sid).1 = Except.error e ∧
      runQueuedJob (fun _ =>
        (processScrapingJob getSrc b (Except.ok ()) sid).1) =
        (Except.error e, jobAttempts) := by
  have herr : ∃ e, (processScrapingJob getSrc b (Except.ok ()) sid).1 =
      Except.error e := by
    rcases h with hn | ⟨src, hg, hi⟩ | ⟨src, hg, hi, h1, h2, h3⟩
    · exact ⟨"Source " ++ sid ++ " not found or inactive",
        by simp [processScrapingJob, hn]⟩
    · exact ⟨"Source " ++ sid ++ " not found or inactive",
        by simp [processScrapingJob, hg, hi]⟩
    · have hc : createManager src.theme =
          Except.error ("Unknown theme: " ++ src.theme) := by
        unfold createManager
        rw [if_neg h1, if_neg h2, if_neg h3]
      exact ⟨"Unknown theme: " ++ src.theme,
        by simp [processScrapingJob, hg, hi, hc]⟩
  obtain ⟨e, he⟩ := herr
  refine ⟨e, he, ?_⟩
  have hfun : (fun _ : Nat =>
      (processScrapingJob getSrc b (Except.ok ()) sid).1) =
      fun _ => Except.error e := by
    funext n
    exact he
  rw [hfun]
  rfl

/-- Witness for the amended C8 at a missing source id. -/
theorem c8_config_error_fails_and_is_retried_witness :
    ∃ e, (processScrapingJob (fun _ => none) ⟨true, true, true, true⟩
        (Except.ok ()) "missing").1 = Except.error e ∧
      runQueuedJob (fun _ =>
        (processScrapingJob (fun _ => none) ⟨true, true, true, true⟩
          (Except.ok ()) "missing").1) = (Except.error e, jobAttempts) :=
  c8_config_error_fails_and_is_retried _ _ _ (Or.inl rfl)

/-! ## SchedulerService

```
scheduleSourceScraping(sourceId: string, intervalMinutes: number): void {
  const task = cron.schedule(cronExpression, async () => {...}, { scheduled: false });
  this.scheduledTasks.set(sourceId, task);
  task.start();
}
stopScheduleForSource(sourceId: string): void {
  const task = this.scheduledTasks.get(sourceId);
  if (task) { task.stop(); this.scheduledTasks.delete(sourceId); }
}
updateScheduleForSource(sourceId: string, intervalMinutes: number): void {
  this.stopScheduleForSource(sourceId);
  this.scheduleSourceScraping(sourceId, intervalMinutes);
}
stopAllSchedules(): void {
  for (const [sourceId, task] of this.scheduledTasks) { task.stop(); }
  this.scheduledTasks.clear();
}
```

A cron task is identified by a fresh numeric id tagged with its source;
`liveTimers` is the set of started-and-not-stopped tasks, and
`scheduledTasks` is the JS `Map` from source id to task.  The scan
interval only fixes the tick cadence and plays no role in the timer
bookkeeping, so it is not carried.  Note `scheduleSourceScraping`
overwrites the map entry WITHOUT stopping a previously registered task:
the old task stays live, merely unregistered. -/

structure TimerM where
  tid : Nat
  sourceId : String
deriving DecidableEq

structure SchedState where
  nextTid : Nat
  liveTimers : List TimerM
  scheduledTasks : List (String × Nat)
deriving DecidableEq

def initialSchedState : SchedState :=
  { nextTid := 0, liveTimers := [], scheduledTasks := [] }

def scheduleSourceScraping (sourceId : String) (st : SchedState) : SchedState :=
  { nextTid := st.nextTid + 1
    liveTimers := ⟨st.nextTid, sourceId⟩ :: st.liveTimers
    scheduledTasks := alSet st.scheduledTasks sourceId st.nextTid }

def stopScheduleForSource (sourceId : String) (st : SchedState) : SchedState :=
  match alGet st.scheduledTasks sourceId with
  | none => st
  | some tid =>
    { st with
      liveTimers := st.liveTimers.filter (fun t => !(t.tid == tid))
      scheduledTasks := alErase st.scheduledTasks sourceId }

def updateScheduleForSource (sourceId : String) (st : SchedState) : SchedState :=
  scheduleSourceScraping sourceId (stopScheduleForSource sourceId st)

def stopAllSchedules (st : SchedState) : SchedState :=
  { st with
    liveTimers := st.liveTimers.filter
      (fun t => !(st.scheduledTasks.any (fun kv => kv.2 == t.tid)))
    scheduledTasks := [] }

inductive SchedOp
  | schedule (sourceId : String)
  | update (sourceId : String)
  | stop (sourceId : String)
  | stopAll
deriving DecidableEq

def applySchedOp : SchedOp → SchedState → SchedState
  | SchedOp.schedule sid, st => scheduleSourceScraping sid st
  | SchedOp.update sid, st => updateScheduleForSource sid st
  | SchedOp.stop sid, st => stopScheduleForSource sid st
  | SchedOp.stopAll, st => stopAllSchedules st

def applySchedOps : List SchedOp → SchedState → SchedState
  | [], st => st
  | op :: rest, st => applySchedOps rest (applySchedOp op st)

/-- The number of live (started, never stopped) timers for a source. -/
def liveTimersFor (sourceId : String) (st : SchedState) : Nat :=
  (st.liveTimers.filter (fun t => t.sourceId == sourceId)).length

/-- Counterexample to C7 as stated: calling `scheduleSourceScraping`
twice for the same source id (as `initializeSchedules` can, or any two
direct schedule calls) leaves TWO live timers for that source — the
first task is overwritten in the map but never stopped, so re-scheduling
does not cancel the prior timer. -/
theorem c7_double_schedule_counterexample :
    liveTimersFor "a" (applySchedOps
      [SchedOp.schedule "a", SchedOp.schedule "a"] initialSchedState) = 2 := rfl

theorem alGet_some_mem {α : Type} (m : List (String × α)) (k : String) (v : α)
    (h : alGet m k = some v) : (k, v) ∈ m := by
  induction m with
  | nil => simp [alGet] at h
  | cons kv rest ih =>
    obtain ⟨k1, v1⟩ := kv
    by_cases hk : k1 = k
    · subst hk
      rw [show alGet ((k1, v1) :: rest) k1 = some v1 from by simp [alGet]] at h
      injection h with h
      subst h
      exact List.mem_cons_self _ _
    · rw [show alGet ((k1, v1) :: rest) k = alGet rest k from by
        simp [alGet, hk]] at h
      exact List.mem_cons_of_mem _ (ih h)

/-- The inductive invariant: every live timer is the one registered for
its source, timer ids are below the fresh-id counter, and no timer is
duplicated. -/
def SchedInv (st : SchedState) : Prop :=
  (∀ t ∈ st.liveTimers, alGet st.scheduledTasks t.sourceId = some t.tid) ∧
  (∀ t ∈ st.liveTimers, t.tid < st.nextTid) ∧
  st.liveTimers.Nodup

theorem schedInv_initial : SchedInv initialSchedState := by
  refine ⟨?_, ?_, ?_⟩ <;> simp [initialSchedState]

theorem schedInv_schedule (st : SchedState) (sid : String)
    (hg : alGet st.scheduledTasks sid = none) (h : SchedInv st) :
    SchedInv (scheduleSourceScraping sid st) := by
  obtain ⟨h1, h2, h3⟩ := h
  refine ⟨?_, ?_, ?_⟩
  · intro t ht
    rcases List.mem_cons.mp ht with hteq | htm
    · subst hteq
      exact alGet_set_self st.scheduledTasks sid st.nextTid
    · by_cases hsid : t.sourceId = sid
      · exfalso
        have hcontra := h1 t htm
        rw [hsid, hg] at hcontra
        exact Option.noConfusion hcontra
      · rw [show (scheduleSourceScraping sid st).scheduledTasks =
          alSet st.scheduledTasks sid st.nextTid from rfl]
        rw [alGet_set_ne st.scheduledTasks sid t.sourceId st.nextTid hsid]
        exact h1 t htm
  · intro t ht
    rcases List.mem_cons.mp ht with hteq | htm
    · subst hteq
      simp [scheduleSourceScraping]
    · have := h2 t htm
      simp only [scheduleSourceScraping]
      omega
  · refine List.Nodup.cons ?_ h3
    intro hmem
    have := h2 _ hmem
    simp at this
  
theorem schedInv_stop (st : SchedState) (sid : String) (h : SchedInv st) :
    SchedInv (stopScheduleForSource sid st) := by
  obtain ⟨h1, h2, h3⟩ := h
  unfold stopScheduleForSource
  cases hg : alGet st.scheduledTasks sid with
  | none => exact ⟨h1, h2, h3⟩
  | some tid0 =>
    refine ⟨?_, ?_, ?_⟩
    · intro t ht
      have hm := List.mem_filter.mp ht
      have htid : t.tid ≠ tid0 := by
        have := hm.2
        simp at this
        exact this
      by_cases hsid : t.sourceId = sid
      · exfalso
        have := h1 t hm.1
        rw [hsid, hg] at this
        injection this with this
        exact htid this.symm
      · show alGet (alErase st.scheduledTasks sid) t.sourceId = some t.tid
        rw [alGet_erase_ne st.scheduledTasks sid t.sourceId hsid]
        exact h1 t hm.1
    · intro t ht
      exact h2 t (List.mem_filter.mp ht).1
    · exact List.Nodup.filter _ h3

theorem schedInv_stopAll (st : SchedState) (h : SchedInv st) :
    SchedInv (stopAllSchedules st) := by
  obtain ⟨h1, h2, h3⟩ := h
  have hdead : ∀ t, t ∈ (stopAllSchedules st).liveTimers → False := by
    intro t ht
    have hm := List.mem_filter.mp ht
    have hreg := h1 t hm.1
    have hmem := alGet_some_mem st.scheduledTasks t.sourceId t.tid hreg
    have hany : st.scheduledTasks.any (fun kv => kv.2 == t.tid) = true := by
      rw [List.any_eq_true]
      exact ⟨(t.sourceId, t.tid), hmem, by simp⟩
    have := hm.2
    rw [hany] at this
    simp at this
  refine ⟨?_, ?_, ?_⟩
  · intro t ht
    exact absurd ht (hdead t)
  · intro t ht
    exact absurd ht (hdead t)
  · exact List.Nodup.filter _ h3

theorem alGet_stop_self (st : SchedState) (sid : String) :
    alGet (stopScheduleForSource sid st).scheduledTasks sid = none := by
  unfold stopScheduleForSource
  cases hg : alGet st.scheduledTasks sid with
  | none => exact hg
  | some tid0 => exact alGet_erase_self st.scheduledTasks sid

def schedOpsGuarded : List SchedOp → SchedState → Prop
  | [], _ => True
  | op :: rest, st =>
    (match op with
     | SchedOp.schedule sid => alGet st.scheduledTasks sid = none
     | _ => True) ∧ schedOpsGuarded rest (applySchedOp op st)

theorem schedInv_applyOp (op : SchedOp) (st : SchedState)
    (hg : match op with
      | SchedOp.schedule sid => alGet st.scheduledTasks sid = none
      | _ => True)
    (h : SchedInv st) : SchedInv (applySchedOp op st) := by
  cases op with
  | schedule sid => exact schedInv_schedule st sid hg h
  | update sid =>
    exact schedInv_schedule _ sid (alGet_stop_self st sid)
      (schedInv_stop st sid h)
  | stop sid => exact schedInv_stop st sid h
  | stopAll => exact schedInv_stopAll st h

theorem schedInv_applyOps (ops : List SchedOp) : ∀ (st : SchedState),
    SchedInv st → schedOpsGuarded ops st →
    SchedInv (applySchedOps ops st) := by
  induction ops with
  | nil => intro st h _; exact h
  | cons op rest ih =>
    intro st h hg
    exact ih _ (schedInv_applyOp op st hg.1 h) hg.2

theorem liveTimersFor_le_one (st : SchedState) (h : SchedInv st)
    (sid : String) : liveTimersFor sid st ≤ 1 := by
  obtain ⟨h1, _, h3⟩ := h
  unfold liveTimersFor
  cases hf : st.liveTimers.filter (fun t => t.sourceId == sid) with
  | nil => simp
  | cons a t =>
    cases t with
    | nil => simp
    | cons b rest =>
      exfalso
      have hnf : (st.liveTimers.filter (fun t => t.sourceId == sid)).Nodup :=
        List.Nodup.filter _ h3
      rw [hf] at hnf
      have hma : a ∈ st.liveTimers.filter (fun t => t.sourceId == sid) := by
        rw [hf]; exact List.mem_cons_self _ _
      have hmb : b ∈ st.liveTimers.filter (fun t => t.sourceId == sid) := by
        rw [hf]; exact List.mem_cons_of_mem _ (List.mem_cons_self _ _)
      have ha := List.mem_filter.mp hma
      have hb := List.mem_filter.mp hmb
      have hsa : a.sourceId = sid := by have := ha.2; simpa using this
      have hsb : b.sourceId = sid := by have := hb.2; simpa using this
      have hia := h1 a ha.1
      have hib := h1 b hb.1
      rw [hsa] at hia
      rw [hsb] at hib
      rw [hia] at hib
      injection hib with htid
      have hab : a = b := by
        obtain ⟨atid, asid⟩ := a
        obtain ⟨btid, bsid⟩ := b
        simp only at hsa hsb htid
        rw [show asid = bsid from hsa.trans hsb.symm, htid]
      rw [List.nodup_cons] at hnf
      exact hnf.1 (hab ▸ List.mem_cons_self b rest)

/-- Claim C7, amended: `updateScheduleForSource` stops the prior timer
before creating and registering the replacement, and as long as direct
`scheduleSourceScraping` calls only target sources with no registered
timer, every sequence of schedule/update/stop/stop-all operations keeps
at most one live timer per source id.  (A direct re-schedule of an
already-registered source leaves the prior timer live though
deregistered, per the counterexample.) -/
theorem c7_single_live_timer_when_guarded (ops : List SchedOp)
    (hg : schedOpsGuarded ops initialSchedState) (sid : String) :
    liveTimersFor sid (applySchedOps ops initialSchedState) ≤ 1 :=
  liveTimersFor_le_one _
    (schedInv_applyOps ops initialSchedState schedInv_initial hg) sid

/-- Witness for the amended C7: schedule, update (which replaces the
timer), then stop, for one source. -/
theorem c7_single_live_timer_when_guarded_witness :
    schedOpsGuarded [SchedOp.schedule "a", SchedOp.update "a", SchedOp.stop "a"]
      initialSchedState ∧
    liveTimersFor "a" (applySchedOps
      [SchedOp.schedule "a", SchedOp.update "a", SchedOp.stop "a"]
      initialSchedState) ≤ 1 := by
  have hguard : schedOpsGuarded
      [SchedOp.schedule "a", SchedOp.update "a", SchedOp.stop "a"]
      initialSchedState := by
    simp [schedOpsGuarded, initialSchedState, alGet]
  exact ⟨hguard, c7_single_live_timer_when_guarded _ hguard "a"⟩

end MS
